import Mathlib

/-!
# Verification of the torifune 2D game-library wrapper

Shallow embedding of the sub-screen stacking, effect-list, movable-object,
debug-overlay, input-listener and depth-comparator subsystems of the
torifune library, together with proofs of the specified properties.

Conventions:
* `Clock` (Rust `u64`) is modelled as `Nat`; the claims under verification
  never exercise wraparound, and subtraction sites are guarded by
  order hypotheses exactly where the claims restrict the inputs.
* `f32` values (positions, sizes, colors) are never computed with by the
  functions under verification, only stored and moved; they are modelled
  by `Int` carriers (or a type parameter `P` for positions).
* Rust `Vec` push/pop at the back is modelled by `xs ++ [x]` /
  `List.dropLast` + `List.getLast?`.
* Thread-local mutable state (`TARGET_SCREEN`, `SCREEN_STACK`) is passed
  explicitly as a `ScreenState` value; the host `ggez::Context` is the
  `GgezContext` record holding the canvas binding and coordinate rect.
-/

namespace Torifune

/-- Logical tick counter (`pub type Clock = u64;` in core.rs). -/
abbrev Clock := Nat

/-- Shared drawable state (`DrawableObjectEssential` in graphics/mod.rs):
visibility flag and an `i8` draw-order depth (modelled as `Int`;
only comparisons and copies are performed on it). -/
structure DrawableObjectEssential where
  visible : Bool
  drawing_depth : Int
  deriving DecidableEq, Repr

/-- Screen-coordinate rectangle (`ggraphics::Rect`), `Int` carriers. -/
structure Rect4 where
  x : Int
  y : Int
  w : Int
  h : Int
  deriving DecidableEq, Repr

/-- The host rendering context state touched by the sub-screen stacking
code: the bound canvas (`ggraphics::set_canvas`; `none` = the window),
the screen coordinates (`ggraphics::set_screen_coordinates`), the window
size (`ggraphics::size`) and the most recent clear color
(`ggraphics::clear`). -/
structure GgezContext where
  bound_canvas : Option Nat
  screen_coords : Rect4
  window_w : Int
  window_h : Int
  last_clear : Option Int
  deriving DecidableEq, Repr

/-- `SubScreen` (graphics/object/sub_screen.rs): the reference-counted
canvas is modelled by its identity `canvas_id`; `pos_x`, `pos_y` are the
`draw_param.dest` fields, `size_x`, `size_y` the stored size and
`back_color` the background color. -/
structure SubScreen where
  canvas_id : Nat
  drwob_essential : DrawableObjectEssential
  pos_x : Int
  pos_y : Int
  size_x : Int
  size_y : Int
  back_color : Int
  deriving DecidableEq, Repr

/-- The process-wide (thread-local) stacking state: the `TARGET_SCREEN`
slot and the `SCREEN_STACK` vector (back of the list = top of stack). -/
structure ScreenState where
  target_screen : Option SubScreen
  screen_stack : List SubScreen
  deriving DecidableEq, Repr

/-- `setup_new_drawing_target`: bind the screen's canvas, clear it to the
background color, set the local coordinate space to `(0,0,w,h)`. -/
def setup_new_drawing_target (screen : SubScreen) (ctx : GgezContext) : GgezContext :=
  { ctx with
      bound_canvas := some screen.canvas_id
      last_clear := some screen.back_color
      screen_coords := ⟨0, 0, screen.size_x, screen.size_y⟩ }

/-- `setup_poped_drawing_target`: bind the screen's canvas and restore its
coordinate space; no clear. -/
def setup_poped_drawing_target (screen : SubScreen) (ctx : GgezContext) : GgezContext :=
  { ctx with
      bound_canvas := some screen.canvas_id
      screen_coords := ⟨0, 0, screen.size_x, screen.size_y⟩ }

/-- `reset_stacking_screen`: replace the `TARGET_SCREEN` slot with the
given screen (or `none` for the window) and return the previous value
(`RefCell::replace_with` returns the old contents). -/
def reset_stacking_screen (new_screen : Option SubScreen) (s : ScreenState) :
    Option SubScreen × ScreenState :=
  match new_screen with
  | some scr => (s.target_screen, { s with target_screen := some scr })
  | none => (s.target_screen, { s with target_screen := none })

/-- `make_none_draw_target`: clear the `TARGET_SCREEN` slot, unbind the
canvas and reset the coordinate space to the window size. -/
def make_none_draw_target (ctx : GgezContext) (s : ScreenState) :
    GgezContext × ScreenState :=
  let s1 := (reset_stacking_screen none s).2
  ({ ctx with
      bound_canvas := none
      screen_coords := ⟨0, 0, ctx.window_w, ctx.window_h⟩ }, s1)

/-- `stack_screen`: configure the context for the new screen, swap it into
the `TARGET_SCREEN` slot, and push the previous target (when there was
one) onto `SCREEN_STACK`. -/
def stack_screen (new_screen : SubScreen) (ctx : GgezContext) (s : ScreenState) :
    GgezContext × ScreenState :=
  let ctx1 := setup_new_drawing_target new_screen ctx
  let r := reset_stacking_screen (some new_screen) s
  let s2 :=
    match r.1 with
    | some last_screen =>
        { r.2 with screen_stack := r.2.screen_stack ++ [last_screen] }
    | none => r.2
  (ctx1, s2)

/-- `pop_screen`: pop `SCREEN_STACK`; when a screen comes off, re-activate
it and store it in `TARGET_SCREEN`, returning the old slot contents;
when the stack was empty, fall back to the window and return `none`. -/
def pop_screen (ctx : GgezContext) (s : ScreenState) :
    Option SubScreen × GgezContext × ScreenState :=
  let last_cur_screen := s.screen_stack.getLast?
  let s0 : ScreenState := { s with screen_stack := s.screen_stack.dropLast }
  match last_cur_screen with
  | some scr =>
      let ctx1 := setup_poped_drawing_target scr ctx
      let r := reset_stacking_screen (some scr) s0
      (r.1, ctx1, r.2)
  | none =>
      let r := make_none_draw_target ctx s0
      (none, r.1, r.2)

/-- One stacking operation: a `stack_screen` call with its argument, or a
`pop_screen` call. -/
inductive ScreenOp where
  | stack (scr : SubScreen)
  | pop
  deriving DecidableEq, Repr

/-- Apply one stacking operation to the combined context/stacking state
(the value `pop_screen` returns is discarded). -/
def applyScreenOp (st : GgezContext × ScreenState) : ScreenOp → GgezContext × ScreenState
  | .stack scr => stack_screen scr st.1 st.2
  | .pop => (pop_screen st.1 st.2).2

/-- Run a sequence of stacking operations. -/
def execScreenOps (ops : List ScreenOp) (st : GgezContext × ScreenState) :
    GgezContext × ScreenState :=
  ops.foldl applyScreenOp st

/-- Balanced call sequences: each `stack_screen` is matched by exactly one
later `pop_screen`, arbitrarily nested. -/
inductive BalancedOps : List ScreenOp → Prop where
  | nil : BalancedOps []
  | wrap (scr : SubScreen) {inner rest : List ScreenOp} :
      BalancedOps inner → BalancedOps rest →
      BalancedOps (ScreenOp.stack scr :: inner ++ ScreenOp.pop :: rest)

/-- States of the stacking mechanism reachable through `stack_screen` and
`pop_screen`: whenever the target slot is empty the stack is empty too
(this holds initially and is preserved by both operations). -/
def ScreenState.WellFormed (s : ScreenState) : Prop :=
  s.target_screen = none → s.screen_stack = []

/-! ## Effect lists (graphics/object.rs, `EffectableWrap`) -/

/-- `EffectFnStatus`: the continue-or-finish answer of one effect call. -/
inductive EffectFnStatus where
  | EffectContinue
  | EffectFinish
  deriving DecidableEq, Repr

/-- `GenericEffectFn`: a boxed closure receiving the wrapped movable
object by mutable reference together with the clock, returning a status.
The read-only `ggez::Context` argument is a constant environment and is
absorbed into the closure. `Obj` stands for the wrapped
`T: MovableObject + TextureObject`. -/
abbrev GenericEffectFn (Obj : Type) := Obj → Clock → Obj × EffectFnStatus

/-- `HasGenericEffectEssential`: the ordered effect queue. -/
structure HasGenericEffectEssential (Obj : Type) where
  effects_list : List (GenericEffectFn Obj)

/-- `EffectableWrap<T>`: a movable object together with its effect queue. -/
structure EffectableWrap (Obj : Type) where
  movable_object : Obj
  geffect_essential : HasGenericEffectEssential Obj

/-- One pass over an effect list: apply each effect in order to the
object, discarding the returned status (the first `for` loop in
`EffectableWrap::effect`). -/
def applyEffectsOnce (t : Clock) (l : List (GenericEffectFn Obj)) (o : Obj) : Obj :=
  l.foldl (fun o f => (f o t).1) o

/-- `Vec::retain` as called in `EffectableWrap::effect`: visit the effects
front to back; each visit invokes the effect on the threaded object and
keeps the effect exactly when that invocation did not return
`EffectFinish`. Returns the object after all invocations and the kept
effects in order. -/
def retainEffects (t : Clock) : List (GenericEffectFn Obj) → Obj → Obj × List (GenericEffectFn Obj)
  | [], o => (o, [])
  | f :: fs, o =>
      let r := f o t
      let rest := retainEffects t fs r.1
      (rest.1, if r.2 = EffectFnStatus.EffectFinish then rest.2 else f :: rest.2)

/-- `EffectableWrap::effect` (graphics/object.rs lines 1314-1324):
first loop over `effects_list` applying every effect, then
`effects_list.retain(|f| f(...) != EffectFinish)`. -/
def EffectableWrap.effect (w : EffectableWrap Obj) (t : Clock) : EffectableWrap Obj :=
  let obj1 := applyEffectsOnce t w.geffect_essential.effects_list w.movable_object
  let r := retainEffects t w.geffect_essential.effects_list obj1
  ⟨r.1, ⟨r.2⟩⟩

/-- `HasGenericEffect::add_effect` for `EffectableWrap`: appends. -/
def EffectableWrap.add_effect (w : EffectableWrap Obj) (effect : List (GenericEffectFn Obj)) :
    EffectableWrap Obj :=
  { w with geffect_essential := ⟨w.geffect_essential.effects_list ++ effect⟩ }

/-- The statuses produced by running an effect list once in order,
threading the mutated object through (used to characterize the retain
pass). -/
def runStatuses (t : Clock) : List (GenericEffectFn Obj) → Obj → List EffectFnStatus
  | [], _ => []
  | f :: fs, o => (f o t).2 :: runStatuses t fs (f o t).1

/-- The behaviour claim C2 ascribes to `effect`, written from the spec's
words for comparison: invoke every queued effect function once against
the wrapped movable object in registration order, then remove exactly
those that signalled `Finish` during this (single) invocation. -/
def effectSpecOnce (w : EffectableWrap Obj) (t : Clock) : EffectableWrap Obj :=
  let l := w.geffect_essential.effects_list
  ⟨applyEffectsOnce t l w.movable_object,
   ⟨((l.zip (runStatuses t l w.movable_object)).filter
       (fun p => p.2 != EffectFnStatus.EffectFinish)).map Prod.fst⟩⟩

/-- What `EffectableWrap::effect` actually does, written as a
specification: every queued effect is invoked twice in registration
order — once in the application loop, once more in the retain pass — and
exactly those effects whose retain-pass invocation signalled `Finish`
are removed. -/
def effectSpecTwice (w : EffectableWrap Obj) (t : Clock) : EffectableWrap Obj :=
  let l := w.geffect_essential.effects_list
  let obj1 := applyEffectsOnce t l w.movable_object
  ⟨applyEffectsOnce t l obj1,
   ⟨((l.zip (runStatuses t l obj1)).filter
       (fun p => p.2 != EffectFnStatus.EffectFinish)).map Prod.fst⟩⟩

/-- A concrete counting effect on `Obj := Nat`: increments the object and
always continues. -/
def incrEffect : GenericEffectFn Nat := fun o _ => (o + 1, EffectFnStatus.EffectContinue)

/-! ## Movable objects (graphics/object.rs, `MovableUniTexture`) -/

/-- The read-only view of a movable object that a position closure
(`&dyn MovableObject`) can observe through the trait surface: position,
visibility, depth, birth time, function-installation time and the
stopped flag. `P` is the position type (`numeric::Point2f`). -/
structure MovableSnapshot (P : Type) where
  position : P
  visible : Bool
  drawing_depth : Int
  birth_time : Clock
  mf_set_time : Clock
  stopped : Bool

/-- `MovableEssential`: the optional position function, the clock value at
its last installation, and the initial position. -/
structure MovableEssential (P : Type) where
  move_func : Option (MovableSnapshot P → Clock → P)
  mf_set_time : Clock
  init_position : P

/-- `MovableUniTexture`: a single texture (identity `texture`) drawn at
`position` (`draw_param.dest`), with the movable state and birth time. -/
structure MovableUniTexture (P : Type) where
  drwob_essential : DrawableObjectEssential
  texture : Nat
  position : P
  mv_essential : MovableEssential P
  birth_time : Clock

/-- `DrawableObject::set_position` for `MovableUniTexture`. -/
def MovableUniTexture.set_position (s : MovableUniTexture P) (pos : P) : MovableUniTexture P :=
  { s with position := pos }

/-- The snapshot of a `MovableUniTexture` passed to its position closure. -/
def MovableUniTexture.snapshot (s : MovableUniTexture P) : MovableSnapshot P :=
  ⟨s.position, s.drwob_essential.visible, s.drwob_essential.drawing_depth,
   s.birth_time, s.mv_essential.mf_set_time, s.mv_essential.move_func.isNone⟩

/-- `MovableObject::move_with_func` for `MovableUniTexture`: when a
position function is installed, set the position to the function applied
to `self` and the elapsed ticks `t - mf_set_time`. -/
def MovableUniTexture.move_with_func (s : MovableUniTexture P) (t : Clock) : MovableUniTexture P :=
  match s.mv_essential.move_func with
  | some f => s.set_position (f s.snapshot (t - s.mv_essential.mf_set_time))
  | none => s

/-- `MovableObject::override_move_func` for `MovableUniTexture`: replace
the function and reset the elapsed-time origin to `now`. -/
def MovableUniTexture.override_move_func (s : MovableUniTexture P)
    (move_fn : Option (MovableSnapshot P → Clock → P)) (now : Clock) : MovableUniTexture P :=
  { s with mv_essential := { s.mv_essential with move_func := move_fn, mf_set_time := now } }

/-- `MovableObject::is_stop` for `MovableUniTexture`. -/
def MovableUniTexture.is_stop (s : MovableUniTexture P) : Bool :=
  s.mv_essential.move_func.isNone

/-! ## Debug overlay (debug.rs, `DebugScreen`) -/

/-- The text-queue state of the `DebugScreen` singleton: the line limit
and the `VecDeque<MovableText>` queue (front of the deque = head of the
list). Each queued `MovableText` is represented by its raw text; the
font, canvas and geometry fields play no part in the queue discipline. -/
structure DebugScreen where
  text_limit : Nat
  text : List String
  deriving DecidableEq, Repr

/-- `DebugScreen::set_text_limit`. -/
def DebugScreen.set_text_limit (s : DebugScreen) (limit : Nat) : DebugScreen :=
  { s with text_limit := limit }

/-- `DebugScreen::push_text` (debug.rs lines 39-60): when the current
queue length exceeds `text_limit`, pop the front, then push the new line
at the back (the loop shifting the drawn positions of the remaining
lines does not touch queue membership). -/
def DebugScreen.push_text (s : DebugScreen) (line : String) : DebugScreen :=
  let popped := if s.text.length > s.text_limit then s.text.drop 1 else s.text
  { s with text := popped ++ [line] }

/-! ## Mouse listener (device.rs, `MouseListener`) -/

/-- `ggez`'s `MouseButton`. -/
inductive MouseButton where
  | Left
  | Middle
  | Right
  | Other (code : Nat)
  deriving DecidableEq, Repr

/-- `MouseButtonStatus`. -/
inductive MouseButtonStatus where
  | MousePressed
  | MouseReleased
  deriving DecidableEq, Repr

/-- `MouseButtonEvent`. -/
inductive MouseButtonEvent where
  | Clicked
  | Pressed
  | Dragged
  deriving DecidableEq, Repr

/-- `MouseListener` state: the last-clicked point and previous-tick status
per button. The two `HashMap`s always carry exactly the keys `Left`,
`Middle`, `Right`; they are modelled as total functions whose values at
`Other _` are never read or written by the listener code. `P` is the
point type (`numeric::Point2f`). The registered event handlers are
opaque closures; dispatch is represented by the `(button, event)` trace
that `update` returns. -/
structure MouseListener (P : Type) where
  last_clicked : MouseButton → P
  button_map : MouseButton → MouseButtonStatus

/-- `MouseListener::new`: every button starts `MouseReleased` with
last-clicked point `(0,0)` (the caller supplies the origin value). -/
def MouseListener.new (origin : P) : MouseListener P :=
  ⟨fun _ => origin, fun _ => MouseButtonStatus.MouseReleased⟩

/-- `MouseListener::get_last_clicked` (device.rs lines 134-139): for
`Left`, `Middle` or `Right` return the stored point (the listener is
taken by shared reference, so its state cannot change); any other button
hits the `panic!` arm, modelled as `none`. -/
def MouseListener.get_last_clicked (m : MouseListener P) (button : MouseButton) : Option P :=
  match button with
  | .Left | .Middle | .Right => some (m.last_clicked button)
  | .Other _ => none

/-- `MouseListener::__flush_button_event` for one button: compare the
polled status with the stored previous status; on a change to
`MousePressed` dispatch `Pressed`, on a change to `MouseReleased` record
the currently polled cursor position as last-clicked and dispatch
`Clicked`; with no change dispatch `Dragged` while pressed and nothing
while released. Returns the updated listener and the dispatched event. -/
def MouseListener.flushButtonEvent (m : MouseListener P) (pos : P)
    (button : MouseButton) (current_state : MouseButtonStatus) :
    MouseListener P × Option MouseButtonEvent :=
  if current_state ≠ m.button_map button then
    match current_state with
    | .MousePressed => (m, some MouseButtonEvent.Pressed)
    | .MouseReleased =>
        ({ m with last_clicked := Function.update m.last_clicked button pos },
         some MouseButtonEvent.Clicked)
  else
    if current_state = MouseButtonStatus.MousePressed then
      (m, some MouseButtonEvent.Dragged)
    else
      (m, none)

/-- `Updatable::update` for `MouseListener` (device.rs lines 188-207):
poll the three buttons, flush their events left-middle-right (the cursor
position polled during this update is `pos`), then commit the three
polled statuses as the new previous statuses. -/
def MouseListener.update (m : MouseListener P)
    (l_status m_status r_status : MouseButtonStatus) (pos : P) :
    MouseListener P × List (MouseButton × Option MouseButtonEvent) :=
  let r1 := m.flushButtonEvent pos MouseButton.Left l_status
  let r2 := r1.1.flushButtonEvent pos MouseButton.Middle m_status
  let r3 := r2.1.flushButtonEvent pos MouseButton.Right r_status
  let committed :=
    Function.update
      (Function.update
        (Function.update r3.1.button_map MouseButton.Left l_status)
        MouseButton.Middle m_status)
      MouseButton.Right r_status
  ({ r3.1 with button_map := committed },
   [(MouseButton.Left, r1.2), (MouseButton.Middle, r2.2), (MouseButton.Right, r3.2)])

/-! ## Keyboard listener (device.rs, `KeyboardListener`) -/

/-- `VirtualKey`: 25 virtual keys, addressed by their `usize` cast in the
source (`key_map` and `event_handlers` are vectors indexed this way). -/
abbrev VirtualKey := Fin 25

/-- `KeyStatus`. -/
inductive KeyStatus where
  | Pressed
  | Released
  | Unknown
  deriving DecidableEq, Repr

/-- `KeyboardEvent`. -/
inductive KeyboardEvent where
  | Typed
  | FirstPressed
  | KeepPressed
  | KeepReleased
  | Unknown
  deriving DecidableEq, Repr

/-- The classification step of `KeyboardListener::flush_key_event`
(device.rs lines 483-509): compare the polled status against the stored
previous status. -/
def classifyKeyEvent (current_state previous : KeyStatus) : KeyboardEvent :=
  if current_state ≠ previous then
    match current_state with
    | .Pressed => KeyboardEvent.FirstPressed
    | .Released => KeyboardEvent.Typed
    | .Unknown => KeyboardEvent.Unknown
  else
    match current_state with
    | .Pressed => KeyboardEvent.KeepPressed
    | .Released => KeyboardEvent.KeepReleased
    | .Unknown => KeyboardEvent.Unknown

/-- `KeyboardListener` state: the watched keys and the previous-tick
status vector (`Vec<KeyStatus>` of length 25, modelled as a total
function on the index type). Handlers are opaque; dispatch is
represented by the `(key, event)` trace that `update` returns. -/
structure KeyboardListener where
  listening : List VirtualKey
  key_map : VirtualKey → KeyStatus

/-- The per-key loop of `Updatable::update` for `KeyboardListener`: for
each watched key in order, poll its status, classify and dispatch the
event against the stored previous status, then overwrite the stored
status with the polled one before moving to the next key. -/
def keyboardUpdateAux (poll : VirtualKey → KeyStatus) :
    List VirtualKey → (VirtualKey → KeyStatus) →
    (VirtualKey → KeyStatus) × List (VirtualKey × KeyboardEvent)
  | [], m => (m, [])
  | v :: vs, m =>
      let ev := classifyKeyEvent (poll v) (m v)
      let rest := keyboardUpdateAux poll vs (Function.update m v (poll v))
      (rest.1, (v, ev) :: rest.2)

/-- `Updatable::update` for `KeyboardListener` (device.rs lines 527-537):
`poll` is `current_key_status` for this tick. Returns the updated
listener and the dispatched `(key, event)` trace in dispatch order. -/
def KeyboardListener.update (kl : KeyboardListener) (poll : VirtualKey → KeyStatus) :
    KeyboardListener × List (VirtualKey × KeyboardEvent) :=
  let r := keyboardUpdateAux poll kl.listening kl.key_map
  (⟨kl.listening, r.1⟩, r.2)

/-- `KeyboardListener::new` tracks every virtual key, with `key_map`
initialized all-`Released`. -/
def KeyboardListener.new : KeyboardListener :=
  ⟨List.finRange 25, fun _ => KeyStatus.Released⟩

/-- `KeyboardListener::new_masked` tracks a caller-chosen key subset. -/
def KeyboardListener.new_masked (listening : List VirtualKey) : KeyboardListener :=
  ⟨listening, fun _ => KeyStatus.Released⟩

/-! ## Depth comparators (graphics/mod.rs, graphics/object.rs) -/

/-- `drawable_object_sort_with_depth` (graphics/mod.rs lines 59-70):
compare two drawables by drawing depth, `Less` when the left depth is
greater. -/
def drawable_object_sort_with_depth (a b : DrawableObjectEssential) : Ordering :=
  if a.drawing_depth > b.drawing_depth then Ordering.lt
  else if a.drawing_depth < b.drawing_depth then Ordering.gt
  else Ordering.eq

/-- `boxed_movable_object_sort_with_depth` (graphics/object.rs lines
259-270): the same comparison over boxed movable objects, reading
`get_drawing_depth`. -/
def boxed_movable_object_sort_with_depth (a : MovableUniTexture P) (b : MovableUniTexture Q) :
    Ordering :=
  if a.drwob_essential.drawing_depth > b.drwob_essential.drawing_depth then Ordering.lt
  else if a.drwob_essential.drawing_depth < b.drwob_essential.drawing_depth then Ordering.gt
  else Ordering.eq

/-- Sorting a sequence of drawables with the depth comparator (the
library's comparators are handed to a comparison sort such as
`sort_by`): an element precedes another when the comparator does not
answer `Greater`. -/
def sortWithDepthComparator (l : List DrawableObjectEssential) : List DrawableObjectEssential :=
  l.mergeSort (fun a b => decide (drawable_object_sort_with_depth a b ≠ Ordering.gt))

/-- The projection of one stacking operation onto the thread-local
stacking state (the host-context effects stripped away); shown equal to
the state component of `applyScreenOp` below. -/
def screenStepOp (s : ScreenState) : ScreenOp → ScreenState
  | .stack scr =>
      match s.target_screen with
      | some t0 => ⟨some scr, s.screen_stack ++ [t0]⟩
      | none => ⟨some scr, s.screen_stack⟩
  | .pop =>
      match s.screen_stack.getLast? with
      | some scr => ⟨some scr, s.screen_stack.dropLast⟩
      | none => ⟨none, s.screen_stack.dropLast⟩

/-- Run a sequence of stacking operations on the stacking state alone. -/
def screenExec (ops : List ScreenOp) (s : ScreenState) : ScreenState :=
  ops.foldl screenStepOp s

/-! ## Concrete sample values used to instantiate the theorems -/

/-- A concrete sub-screen. -/
def sampleScreenA : SubScreen := ⟨1, ⟨true, 0⟩, 0, 0, 100, 80, 7⟩

/-- A second, distinct concrete sub-screen. -/
def sampleScreenB : SubScreen := ⟨2, ⟨true, 0⟩, 5, 5, 50, 40, 9⟩

/-- A concrete host context bound to the window. -/
def sampleCtx : GgezContext := ⟨none, ⟨0, 0, 640, 480⟩, 640, 480, none⟩

/-- A concrete position function over `P := Nat`: returns the elapsed
tick count it receives. -/
def sampleMoveFn : MovableSnapshot Nat → Clock → Nat := fun _ elapsed => elapsed

/-- A concrete movable texture whose position function was installed at
tick 2. -/
def sampleMovable : MovableUniTexture Nat :=
  ⟨⟨true, 0⟩, 0, 7, ⟨some sampleMoveFn, 2, 7⟩, 1⟩

/-! # Theorems -/

/-- Running a concatenation of stacking operations runs the pieces in
order. -/
theorem execScreenOps_append (l1 l2 : List ScreenOp) (st : GgezContext × ScreenState) :
    execScreenOps (l1 ++ l2) st = execScreenOps l2 (execScreenOps l1 st) := by
  simp [execScreenOps, List.foldl_append]

/-- Unfolding one stacking operation. -/
theorem execScreenOps_cons (op : ScreenOp) (ops : List ScreenOp) (st : GgezContext × ScreenState) :
    execScreenOps (op :: ops) st = execScreenOps ops (applyScreenOp st op) := rfl

/-- The stacking state after `pop_screen` depends only on the incoming
stacking state: the last stack entry (when present) becomes the target
and is removed from the stack; otherwise the target is cleared. -/
theorem pop_screen_screen_state (c : GgezContext) (s : ScreenState) :
    (pop_screen c s).2.2 =
      match s.screen_stack.getLast? with
      | some scr => ⟨some scr, s.screen_stack.dropLast⟩
      | none => ⟨none, s.screen_stack.dropLast⟩ := by
  unfold pop_screen
  cases h : s.screen_stack.getLast? <;>
    simp [h, make_none_draw_target, reset_stacking_screen]

/-- The stacking state after `stack_screen`: the new screen becomes the
target; the previous target, when present, is appended to the stack. -/
theorem stack_screen_screen_state (scr : SubScreen) (c : GgezContext) (s : ScreenState) :
    (stack_screen scr c s).2 =
      match s.target_screen with
      | some t0 => ⟨some scr, s.screen_stack ++ [t0]⟩
      | none => ⟨some scr, s.screen_stack⟩ := by
  unfold stack_screen
  cases h : s.target_screen <;> simp [h, reset_stacking_screen]

/-- The stacking-state component of one operation agrees with the pure
step function `screenStepOp`. -/
theorem applyScreenOp_snd (st : GgezContext × ScreenState) (op : ScreenOp) :
    (applyScreenOp st op).2 = screenStepOp st.2 op := by
  cases op with
  | stack scr => exact stack_screen_screen_state scr st.1 st.2
  | pop => exact pop_screen_screen_state st.1 st.2

/-- The stacking-state component of a run of operations agrees with the
pure run `screenExec`. -/
theorem execScreenOps_snd (ops : List ScreenOp) :
    ∀ st : GgezContext × ScreenState, (execScreenOps ops st).2 = screenExec ops st.2 := by
  induction ops with
  | nil => intro st; rfl
  | cons op ops ih =>
      intro st
      rw [execScreenOps_cons, ih, applyScreenOp_snd]
      rfl

/-- Well-formedness (empty target implies empty stack) holds in the
initial state and is preserved by every stack/pop step, so it
characterizes the states reachable through the two operations. -/
theorem screenStepOp_preserves_wellFormed (s : ScreenState) (op : ScreenOp)
    (_h : s.WellFormed) : (screenStepOp s op).WellFormed := by
  cases op with
  | stack scr =>
      cases hts : s.target_screen <;> simp [screenStepOp, hts, ScreenState.WellFormed]
  | pop =>
      cases hg : s.screen_stack.getLast? with
      | some scr => simp [screenStepOp, hg, ScreenState.WellFormed]
      | none =>
          have : s.screen_stack = [] := by
            cases hstk : s.screen_stack with
            | nil => rfl
            | cons x xs => rw [hstk] at hg; simp [List.getLast?_concat] at hg
          simp [screenStepOp, hg, ScreenState.WellFormed, this]

/-- Well-formedness is preserved by whole runs of stacking operations. -/
theorem screenExec_preserves_wellFormed (ops : List ScreenOp) :
    ∀ s : ScreenState, s.WellFormed → (screenExec ops s).WellFormed := by
  induction ops with
  | nil => intro s h; exact h
  | cons op ops ih =>
      intro s h
      exact ih (screenStepOp s op) (screenStepOp_preserves_wellFormed s op h)

/-- The pure restoration lemma behind claim C1: any balanced sequence of
stack/pop steps is the identity on well-formed stacking states. -/
theorem screenExec_balanced_id (ops : List ScreenOp) (hbal : BalancedOps ops) :
    ∀ s : ScreenState, s.WellFormed → screenExec ops s = s := by
  induction hbal with
  | nil => intro s _; rfl
  | @wrap scr inner rest _ _ ihinner ihrest =>
    intro s hwf
    have hsplit : screenExec ((ScreenOp.stack scr :: inner) ++ ScreenOp.pop :: rest) s
        = screenExec rest (screenStepOp (screenExec inner (screenStepOp s (ScreenOp.stack scr)))
            ScreenOp.pop) := by
      simp [screenExec, List.foldl_append]
    rw [hsplit]
    cases hts : s.target_screen with
    | some t0 =>
      have h1 : screenStepOp s (ScreenOp.stack scr) = ⟨some scr, s.screen_stack ++ [t0]⟩ := by
        simp [screenStepOp, hts]
      have h2 : screenExec inner (screenStepOp s (ScreenOp.stack scr))
          = ⟨some scr, s.screen_stack ++ [t0]⟩ := by
        rw [h1, ihinner _ (fun hx => by cases hx)]
      have h3 : screenStepOp (screenExec inner (screenStepOp s (ScreenOp.stack scr))) ScreenOp.pop
          = ⟨some t0, s.screen_stack⟩ := by
        rw [h2]; simp [screenStepOp]
      rw [h3, ihrest _ (fun hx => by cases hx)]
      rw [← hts]
    | none =>
      have hst : s.screen_stack = [] := hwf hts
      have h1 : screenStepOp s (ScreenOp.stack scr) = ⟨some scr, []⟩ := by
        simp [screenStepOp, hts, hst]
      have h2 : screenExec inner (screenStepOp s (ScreenOp.stack scr)) = ⟨some scr, []⟩ := by
        rw [h1, ihinner _ (fun hx => by cases hx)]
      have h3 : screenStepOp (screenExec inner (screenStepOp s (ScreenOp.stack scr))) ScreenOp.pop
          = ⟨none, []⟩ := by
        rw [h2]; simp [screenStepOp]
      rw [h3, ihrest _ (fun _ => rfl)]
      rw [← hts, ← hst]

/-- C1: for every balanced sequence of `stack_screen`/`pop_screen` calls
(each `stack_screen` matched by exactly one later `pop_screen`,
arbitrarily nested), the render-target state — the `TARGET_SCREEN` slot
together with the `SCREEN_STACK` contents — after the sequence equals
what it was before the first `stack_screen`, for every state reachable
by these operations (characterized by `ScreenState.WellFormed`). -/
theorem balanced_stack_pop_restores_state (ops : List ScreenOp) (hbal : BalancedOps ops)
    (st : GgezContext × ScreenState) (hwf : st.2.WellFormed) :
    (execScreenOps ops st).2 = st.2 := by
  rw [execScreenOps_snd]
  exact screenExec_balanced_id ops hbal st.2 hwf

/-- C1 witness: the concrete balanced sequence stack-then-pop, run from
the initial state (window target, empty stack), restores that state. -/
theorem balanced_stack_pop_restores_state_witness :
    BalancedOps [ScreenOp.stack sampleScreenA, ScreenOp.pop]
    ∧ (execScreenOps [ScreenOp.stack sampleScreenA, ScreenOp.pop]
        (sampleCtx, ⟨none, []⟩)).2 = ⟨none, []⟩ :=
  ⟨BalancedOps.wrap sampleScreenA BalancedOps.nil BalancedOps.nil,
   balanced_stack_pop_restores_state _
     (BalancedOps.wrap sampleScreenA BalancedOps.nil BalancedOps.nil)
     (sampleCtx, ⟨none, []⟩) (fun _ => rfl)⟩

/-- C5 counterexample: with target screen B active and screen A the most
recently pushed (and only) stack entry, `pop_screen` pops A but returns
`some B` — the previously active target, not the popped one — refuting
the claim that the popped target is returned. -/
theorem pop_screen_returns_replaced_target_cex :
    ([sampleScreenA] : List SubScreen).getLast? = some sampleScreenA
    ∧ (pop_screen sampleCtx ⟨some sampleScreenB, [sampleScreenA]⟩).1 = some sampleScreenB
    ∧ (some sampleScreenB : Option SubScreen) ≠ some sampleScreenA := by
  refine ⟨rfl, rfl, ?_⟩
  decide

/-- C5 (amended): `pop_screen` pops the most recently pushed target from
the screen stack; if one is present it re-binds its canvas as the
rendering target and restores its coordinate space, and if the stack is
empty it falls back to the window surface; it returns the target that
was active before the call (the replaced `TARGET_SCREEN` contents) when
the stack was non-empty, and none when the stack was empty. -/
theorem pop_screen_spec (ctx : GgezContext) (s : ScreenState) :
    (∀ stk scr, s.screen_stack = stk ++ [scr] →
      pop_screen ctx s =
        (s.target_screen,
         { ctx with
             bound_canvas := some scr.canvas_id
             screen_coords := ⟨0, 0, scr.size_x, scr.size_y⟩ },
         ⟨some scr, stk⟩))
    ∧ (s.screen_stack = [] →
      pop_screen ctx s =
        (none,
         { ctx with
             bound_canvas := none
             screen_coords := ⟨0, 0, ctx.window_w, ctx.window_h⟩ },
         ⟨none, []⟩)) := by
  constructor
  · intro stk scr h
    simp [pop_screen, h, setup_poped_drawing_target, reset_stacking_screen]
  · intro h
    simp [pop_screen, h, make_none_draw_target, reset_stacking_screen]

/-- C5 witness: the amended characterization evaluated on a concrete
one-element stack and on the empty stack. -/
theorem pop_screen_spec_witness :
    (pop_screen sampleCtx ⟨some sampleScreenB, [sampleScreenA]⟩ =
      (some sampleScreenB,
       { sampleCtx with
           bound_canvas := some sampleScreenA.canvas_id
           screen_coords := ⟨0, 0, sampleScreenA.size_x, sampleScreenA.size_y⟩ },
       ⟨some sampleScreenA, []⟩))
    ∧ (pop_screen sampleCtx ⟨some sampleScreenB, []⟩ =
      (none,
       { sampleCtx with
           bound_canvas := none
           screen_coords := ⟨0, 0, sampleCtx.window_w, sampleCtx.window_h⟩ },
       ⟨none, []⟩)) :=
  ⟨(pop_screen_spec sampleCtx ⟨some sampleScreenB, [sampleScreenA]⟩).1 [] sampleScreenA rfl,
   (pop_screen_spec sampleCtx ⟨some sampleScreenB, []⟩).2 rfl⟩

/-- Unfolding one effect application in the application loop. -/
theorem applyEffectsOnce_cons (t : Clock) (f : GenericEffectFn Obj)
    (fs : List (GenericEffectFn Obj)) (o : Obj) :
    applyEffectsOnce t (f :: fs) o = applyEffectsOnce t fs (f o t).1 := rfl

/-- The object coming out of the retain pass has every effect applied
(once more) to it, kept or not. -/
theorem retainEffects_fst (t : Clock) :
    ∀ (l : List (GenericEffectFn Obj)) (o : Obj),
      (retainEffects t l o).1 = applyEffectsOnce t l o := by
  intro l
  induction l with
  | nil => intro o; rfl
  | cons f fs ih =>
      intro o
      rw [applyEffectsOnce_cons, ← ih (f o t).1]
      rfl

/-- The effects kept by the retain pass are exactly those whose
invocation during the pass (on the threaded object) did not answer
`EffectFinish`. -/
theorem retainEffects_snd (t : Clock) :
    ∀ (l : List (GenericEffectFn Obj)) (o : Obj),
      (retainEffects t l o).2 =
        ((l.zip (runStatuses t l o)).filter
          (fun p => p.2 != EffectFnStatus.EffectFinish)).map Prod.fst := by
  intro l
  induction l with
  | nil => intro o; rfl
  | cons f fs ih =>
      intro o
      cases h : (f o t).2 with
      | EffectContinue =>
          simp only [retainEffects, runStatuses, List.zip_cons_cons, List.filter_cons, h,
            List.map_cons, ih (f o t).1]
          simp
      | EffectFinish =>
          simp only [retainEffects, runStatuses, List.zip_cons_cons, List.filter_cons, h,
            List.map_cons, ih (f o t).1]
          simp

/-- The wrapped object after `effect` has the whole effect list applied
to it twice over. -/
theorem effect_movable_object (w : EffectableWrap Obj) (t : Clock) :
    (EffectableWrap.effect w t).movable_object =
      applyEffectsOnce t w.geffect_essential.effects_list
        (applyEffectsOnce t w.geffect_essential.effects_list w.movable_object) := by
  simp [EffectableWrap.effect, retainEffects_fst]

/-- A list of counting effects advances the counter by its length in one
application pass. -/
theorem applyEffectsOnce_counting (t : Clock) :
    ∀ (l : List (GenericEffectFn Nat)), (∀ f ∈ l, ∀ o u, (f o u).1 = o + 1) →
      ∀ c : Nat, applyEffectsOnce t l c = c + l.length := by
  intro l
  induction l with
  | nil => intro _ c; rfl
  | cons f fs ih =>
      intro h c
      rw [applyEffectsOnce_cons, h f (List.mem_cons_self f fs) c t,
        ih (fun g hg => h g (List.mem_cons_of_mem f hg)) (c + 1)]
      simp [List.length_cons]
      omega

/-- C2 counterexample: a single always-continuing increment effect. One
call of `effect` advances the counter by 2 — the effect ran twice —
whereas the claimed once-only semantics (`effectSpecOnce`, written from
the spec's words) advances it by 1. -/
theorem effect_not_once_per_tick_cex :
    (EffectableWrap.effect ⟨0, ⟨[incrEffect]⟩⟩ 5).movable_object = 2
    ∧ (effectSpecOnce ⟨0, ⟨[incrEffect]⟩⟩ 5).movable_object = 1
    ∧ (2 : Nat) ≠ 1 := by
  refine ⟨rfl, rfl, by decide⟩

/-- C2 (amended): `effect(context, t)` invokes every queued effect
function against the wrapped movable object in registration order —
twice, once in the application loop and once more in the retain pass —
then removes exactly those whose retain-pass invocation signalled
`Finish`: an effect that reports `Finish` on tick T is still applied on
tick T and is absent from the list afterwards, and no surviving effect
is skipped, though each is applied twice rather than once per tick. -/
theorem effect_matches_twice_spec (Obj : Type) (w : EffectableWrap Obj) (t : Clock) :
    EffectableWrap.effect w t = effectSpecTwice w t := by
  simp [EffectableWrap.effect, effectSpecTwice, retainEffects_fst, retainEffects_snd]

/-- C3: in a single `effect(ctx, t)` call each queued effect function is
invoked twice — witnessed by a counter object advancing by twice the
queue length under increment effects — and the retained queue is decided
by the status of the second (retain-pass) invocation, performed on the
object already holding the first pass's mutations. -/
theorem effect_double_invocation_and_second_pass_removal :
    (∀ (l : List (GenericEffectFn Nat)) (c : Nat) (t : Clock),
      (∀ f ∈ l, ∀ o u, (f o u).1 = o + 1) →
      (EffectableWrap.effect ⟨c, ⟨l⟩⟩ t).movable_object = c + 2 * l.length)
    ∧ (∀ (Obj : Type) (w : EffectableWrap Obj) (t : Clock),
      (EffectableWrap.effect w t).geffect_essential.effects_list =
        ((w.geffect_essential.effects_list.zip
            (runStatuses t w.geffect_essential.effects_list
              (applyEffectsOnce t w.geffect_essential.effects_list w.movable_object))).filter
          (fun p => p.2 != EffectFnStatus.EffectFinish)).map Prod.fst) := by
  constructor
  · intro l c t h
    rw [effect_movable_object]
    simp only [applyEffectsOnce_counting t l h]
    omega
  · intro Obj w t
    simp [EffectableWrap.effect, retainEffects_snd]

/-- C3 witness: one increment effect, counter 0, tick 5 — the counter
ends at 2 = 0 + 2 * 1. -/
theorem effect_double_invocation_witness :
    (∀ f ∈ [incrEffect], ∀ o u, (f o u).1 = o + 1)
    ∧ (EffectableWrap.effect ⟨0, ⟨[incrEffect]⟩⟩ 5).movable_object =
        0 + 2 * ([incrEffect] : List (GenericEffectFn Nat)).length := by
  have h : ∀ f ∈ [incrEffect], ∀ o u, (f o u).1 = o + 1 := by
    intro f hf o u
    rw [List.mem_singleton] at hf
    subst hf
    rfl
  exact ⟨h, effect_double_invocation_and_second_pass_removal.1 [incrEffect] 0 5 h⟩

/-- C4: with a position function installed, `move_with_func(t)` (for any
tick `t` not earlier than the function's installation time) sets the
position to the function applied to the object snapshot and the elapsed
ticks `t - mf_set_time`; in particular, immediately after
`override_move_func(f, now)`, `move_with_func(now)` yields the function
at elapsed time 0. -/
theorem move_with_func_uses_elapsed_ticks :
    (∀ (P : Type) (s : MovableUniTexture P) (f : MovableSnapshot P → Clock → P) (t : Clock),
      s.mv_essential.move_func = some f → s.mv_essential.mf_set_time ≤ t →
      (s.move_with_func t).position = f s.snapshot (t - s.mv_essential.mf_set_time))
    ∧ (∀ (P : Type) (s : MovableUniTexture P) (f : MovableSnapshot P → Clock → P) (now : Clock),
      ((s.override_move_func (some f) now).move_with_func now).position =
        f (s.override_move_func (some f) now).snapshot 0) := by
  constructor
  · intro P s f t hf _
    simp [MovableUniTexture.move_with_func, hf, MovableUniTexture.set_position]
  · intro P s f now
    simp [MovableUniTexture.move_with_func, MovableUniTexture.override_move_func,
      MovableUniTexture.set_position]

/-- C4 witness: the sample movable (function installed at tick 2) moved
at tick 5 lands at elapsed time 3, and after re-installation at tick 9 a
move at tick 9 lands at elapsed time 0. -/
theorem move_with_func_uses_elapsed_ticks_witness :
    sampleMovable.mv_essential.move_func = some sampleMoveFn
    ∧ sampleMovable.mv_essential.mf_set_time ≤ 5
    ∧ (sampleMovable.move_with_func 5).position =
        sampleMoveFn sampleMovable.snapshot (5 - sampleMovable.mv_essential.mf_set_time)
    ∧ ((sampleMovable.override_move_func (some sampleMoveFn) 9).move_with_func 9).position =
        sampleMoveFn (sampleMovable.override_move_func (some sampleMoveFn) 9).snapshot 0 :=
  ⟨rfl, by decide,
   move_with_func_uses_elapsed_ticks.1 Nat sampleMovable sampleMoveFn 5 rfl (by decide),
   move_with_func_uses_elapsed_ticks.2 Nat sampleMovable sampleMoveFn 9⟩

/-- C6 counterexample: with the line limit set to 3, pushing L1..L5 does
not leave `[L3, L4, L5]` — the front is popped only when the length
already exceeds the limit, so four lines survive. -/
theorem debug_push_text_five_lines_cex :
    (List.foldl DebugScreen.push_text ((⟨0, []⟩ : DebugScreen).set_text_limit 3)
      ["L1", "L2", "L3", "L4", "L5"]).text ≠ ["L3", "L4", "L5"] := by
  decide

/-- C6 (amended): with the line limit set to 3, pushing 5 lines L1..L5
leaves exactly the four lines `[L2, L3, L4, L5]` in the overlay's text
queue, oldest dropped — the queue is bounded by `text_limit + 1`, not
`text_limit`. -/
theorem debug_push_text_five_lines :
    List.foldl DebugScreen.push_text ((⟨0, []⟩ : DebugScreen).set_text_limit 3)
      ["L1", "L2", "L3", "L4", "L5"] = ⟨3, ["L2", "L3", "L4", "L5"]⟩ := by
  rfl

/-- A key the per-key loop does not visit keeps its stored status. -/
theorem keyboardUpdateAux_fst_not_mem (poll : VirtualKey → KeyStatus) (k : VirtualKey) :
    ∀ (vs : List VirtualKey) (m : VirtualKey → KeyStatus), k ∉ vs →
      (keyboardUpdateAux poll vs m).1 k = m k := by
  intro vs
  induction vs with
  | nil => intro m _; rfl
  | cons v vs ih =>
      intro m hk
      have hkv : k ≠ v := fun h => hk (h ▸ List.mem_cons_self v vs)
      have hkvs : k ∉ vs := fun h => hk (List.mem_cons_of_mem v h)
      show (keyboardUpdateAux poll vs (Function.update m v (poll v))).1 k = m k
      rw [ih _ hkvs, Function.update_noteq hkv]

/-- A key the per-key loop visits ends up with its polled status stored. -/
theorem keyboardUpdateAux_fst_mem (poll : VirtualKey → KeyStatus) (k : VirtualKey) :
    ∀ (vs : List VirtualKey) (m : VirtualKey → KeyStatus), k ∈ vs →
      (keyboardUpdateAux poll vs m).1 k = poll k := by
  intro vs
  induction vs with
  | nil => intro m hk; cases hk
  | cons v vs ih =>
      intro m hk
      show (keyboardUpdateAux poll vs (Function.update m v (poll v))).1 k = poll k
      by_cases hkvs : k ∈ vs
      · rw [ih _ hkvs]
      · have hkv : k = v := by
          rcases List.mem_cons.mp hk with h | h
          · exact h
          · exact absurd h hkvs
        rw [keyboardUpdateAux_fst_not_mem poll k vs _ hkvs, hkv, Function.update_same]

/-- A key the per-key loop does not visit contributes no trace entry. -/
theorem keyboardUpdateAux_trace_not_mem (poll : VirtualKey → KeyStatus) (k : VirtualKey) :
    ∀ (vs : List VirtualKey) (m : VirtualKey → KeyStatus), k ∉ vs →
      ((keyboardUpdateAux poll vs m).2).filter (fun e => decide (e.1 = k)) = [] := by
  intro vs
  induction vs with
  | nil => intro m _; rfl
  | cons v vs ih =>
      intro m hk
      have hkv : ¬(v = k) := fun h => hk (h ▸ List.mem_cons_self v vs)
      have hkvs : k ∉ vs := fun h => hk (List.mem_cons_of_mem v h)
      show (((v, classifyKeyEvent (poll v) (m v)) ::
        (keyboardUpdateAux poll vs (Function.update m v (poll v))).2).filter
          (fun e => decide (e.1 = k))) = []
      rw [List.filter_cons]
      simp only [decide_eq_true_eq]
      rw [if_neg (by simpa using hkv)]
      exact ih _ hkvs

/-- With no duplicate watched keys, the trace of one update holds exactly
one entry for a watched key `k`: the classification of its polled status
against its stored status from before this update. -/
theorem keyboardUpdateAux_trace_mem (poll : VirtualKey → KeyStatus) (k : VirtualKey) :
    ∀ (vs : List VirtualKey) (m : VirtualKey → KeyStatus), vs.Nodup → k ∈ vs →
      ((keyboardUpdateAux poll vs m).2).filter (fun e => decide (e.1 = k))
        = [(k, classifyKeyEvent (poll k) (m k))] := by
  intro vs
  induction vs with
  | nil => intro m _ hk; cases hk
  | cons v vs ih =>
      intro m hnd hk
      have hv_not : v ∉ vs := (List.nodup_cons.mp hnd).1
      have hnd' : vs.Nodup := (List.nodup_cons.mp hnd).2
      show (((v, classifyKeyEvent (poll v) (m v)) ::
        (keyboardUpdateAux poll vs (Function.update m v (poll v))).2).filter
          (fun e => decide (e.1 = k))) = _
      rcases List.mem_cons.mp hk with hkv | hkvs
      · subst hkv
        rw [List.filter_cons, if_pos (by simp)]
        rw [keyboardUpdateAux_trace_not_mem poll k vs _ hv_not]
      · have hkv : ¬(v = k) := fun h => hv_not (h ▸ hkvs)
        rw [List.filter_cons, if_neg (by simpa using hkv)]
        rw [ih _ hnd' hkvs, Function.update_noteq (fun h => hkv h.symm)]

/-- C7: from the initial all-released `key_map`, polling a watched key
Released, then Pressed, then Released over three consecutive `update`
calls dispatches for that key exactly `FirstPressed` on the
Released-to-Pressed tick and exactly `Typed` on the Pressed-to-Released
tick — the stored previous status is committed only after
classification, so each transition is classified against the status
polled one tick earlier. -/
theorem keyboard_transition_events (listening : List VirtualKey) (k : VirtualKey)
    (hmem : k ∈ listening) (hnd : listening.Nodup)
    (p1 p2 p3 : VirtualKey → KeyStatus)
    (h1 : p1 k = KeyStatus.Released) (h2 : p2 k = KeyStatus.Pressed)
    (h3 : p3 k = KeyStatus.Released) :
    (((((⟨listening, fun _ => KeyStatus.Released⟩ : KeyboardListener).update p1).1.update
        p2).2.filter (fun e => decide (e.1 = k))).map Prod.snd = [KeyboardEvent.FirstPressed])
    ∧ ((((((⟨listening, fun _ => KeyStatus.Released⟩ : KeyboardListener).update p1).1.update
        p2).1.update p3).2.filter (fun e => decide (e.1 = k))).map Prod.snd
        = [KeyboardEvent.Typed]) := by
  have hm1 : (((⟨listening, fun _ => KeyStatus.Released⟩ : KeyboardListener).update p1).1).key_map k
      = KeyStatus.Released := by
    show (keyboardUpdateAux p1 listening (fun _ => KeyStatus.Released)).1 k = _
    rw [keyboardUpdateAux_fst_mem p1 k listening _ hmem, h1]
  have hm2 : ((((⟨listening, fun _ => KeyStatus.Released⟩ : KeyboardListener).update p1).1.update
      p2).1).key_map k = KeyStatus.Pressed := by
    show (keyboardUpdateAux p2 listening _).1 k = _
    rw [keyboardUpdateAux_fst_mem p2 k listening _ hmem, h2]
  constructor
  · show ((keyboardUpdateAux p2 listening
        ((((⟨listening, fun _ => KeyStatus.Released⟩ : KeyboardListener).update p1).1).key_map)).2.filter
          (fun e => decide (e.1 = k))).map Prod.snd = _
    rw [keyboardUpdateAux_trace_mem p2 k listening _ hnd hmem, hm1, h2]
    rfl
  · show ((keyboardUpdateAux p3 listening
        (((((⟨listening, fun _ => KeyStatus.Released⟩ : KeyboardListener).update p1).1.update
            p2).1).key_map)).2.filter (fun e => decide (e.1 = k))).map Prod.snd = _
    rw [keyboardUpdateAux_trace_mem p3 k listening _ hnd hmem, hm2, h3]
    rfl

/-- C7 witness: a listener watching the single key 0, polled Released,
Pressed, Released. -/
theorem keyboard_transition_events_witness :
    ((0 : VirtualKey) ∈ [(0 : VirtualKey)])
    ∧ ([(0 : VirtualKey)]).Nodup
    ∧ (((((⟨[0], fun _ => KeyStatus.Released⟩ : KeyboardListener).update
          (fun _ => KeyStatus.Released)).1.update (fun _ => KeyStatus.Pressed)).2.filter
        (fun e => decide (e.1 = (0 : VirtualKey)))).map Prod.snd = [KeyboardEvent.FirstPressed])
    ∧ ((((((⟨[0], fun _ => KeyStatus.Released⟩ : KeyboardListener).update
          (fun _ => KeyStatus.Released)).1.update (fun _ => KeyStatus.Pressed)).1.update
          (fun _ => KeyStatus.Released)).2.filter
        (fun e => decide (e.1 = (0 : VirtualKey)))).map Prod.snd = [KeyboardEvent.Typed]) := by
  have h := keyboard_transition_events [0] 0 (by decide) (by decide)
    (fun _ => KeyStatus.Released) (fun _ => KeyStatus.Pressed) (fun _ => KeyStatus.Released)
    rfl rfl rfl
  exact ⟨by decide, by decide, h.1, h.2⟩

/-- C8: polling the left button Released, Pressed, Released with the
cursor at (0,0), (5,5), (9,9) on the three updates leaves `(9,9)` as the
last-clicked point for Left: the position polled on the tick where the
Pressed-to-Released transition is detected. -/
theorem mouse_last_clicked_scenario :
    ((((MouseListener.new ((0, 0) : Int × Int)).update
        MouseButtonStatus.MouseReleased MouseButtonStatus.MouseReleased
        MouseButtonStatus.MouseReleased (0, 0)).1.update
        MouseButtonStatus.MousePressed MouseButtonStatus.MouseReleased
        MouseButtonStatus.MouseReleased (5, 5)).1.update
        MouseButtonStatus.MouseReleased MouseButtonStatus.MouseReleased
        MouseButtonStatus.MouseReleased (9, 9)).1.get_last_clicked MouseButton.Left
      = some (9, 9) := by
  rfl

/-- C10: `get_last_clicked` on a button outside Left/Middle/Right hits
the `panic!` arm (modelled `none`); on Left, Middle or Right it returns
the stored last-clicked point — the listener is borrowed immutably, so
no state changes. -/
theorem get_last_clicked_spec (P : Type) (m : MouseListener P) :
    (∀ code : Nat, m.get_last_clicked (MouseButton.Other code) = none)
    ∧ m.get_last_clicked MouseButton.Left = some (m.last_clicked MouseButton.Left)
    ∧ m.get_last_clicked MouseButton.Middle = some (m.last_clicked MouseButton.Middle)
    ∧ m.get_last_clicked MouseButton.Right = some (m.last_clicked MouseButton.Right) :=
  ⟨fun _ => rfl, rfl, rfl, rfl⟩

/-- The comparator answers anything but `Greater` exactly when the right
depth is at most the left depth. -/
theorem depth_comparator_not_gt_iff (a b : DrawableObjectEssential) :
    drawable_object_sort_with_depth a b ≠ Ordering.gt ↔
      b.drawing_depth ≤ a.drawing_depth := by
  unfold drawable_object_sort_with_depth
  split_ifs with h1 h2 <;> simp <;> omega

/-- C9: the depth comparator returns `Less` exactly when the left depth
is greater, `Greater` exactly when it is smaller, and `Equal` when the
depths coincide; consequently sorting with it arranges drawables in
non-increasing depth order (larger depth values first, a permutation of
the input), and the boxed-movable variant computes the same ordering. -/
theorem depth_comparator_descending :
    (∀ a b : DrawableObjectEssential,
      (drawable_object_sort_with_depth a b = Ordering.lt ↔
        b.drawing_depth < a.drawing_depth)
      ∧ (drawable_object_sort_with_depth a b = Ordering.gt ↔
        a.drawing_depth < b.drawing_depth)
      ∧ (drawable_object_sort_with_depth a b = Ordering.eq ↔
        a.drawing_depth = b.drawing_depth))
    ∧ (∀ l : List DrawableObjectEssential,
      (sortWithDepthComparator l).Pairwise
        (fun a b => b.drawing_depth ≤ a.drawing_depth)
      ∧ (sortWithDepthComparator l).Perm l)
    ∧ (∀ (P Q : Type) (a : MovableUniTexture P) (b : MovableUniTexture Q),
      boxed_movable_object_sort_with_depth a b =
        drawable_object_sort_with_depth a.drwob_essential b.drwob_essential) := by
  refine ⟨fun a b => ?_, fun l => ⟨?_, List.mergeSort_perm l _⟩, fun P Q a b => rfl⟩
  · unfold drawable_object_sort_with_depth
    split_ifs with h1 h2 <;> refine ⟨?_, ?_, ?_⟩ <;> simp <;> omega
  · have hs := @List.sorted_mergeSort DrawableObjectEssential
      (fun a b => decide (drawable_object_sort_with_depth a b ≠ Ordering.gt))
      (fun a b c hab hbc => by
        rw [decide_eq_true_eq] at *
        exact (depth_comparator_not_gt_iff a c).mpr
          (le_trans ((depth_comparator_not_gt_iff b c).mp hbc)
            ((depth_comparator_not_gt_iff a b).mp hab)))
      (fun a b => by
        rw [Bool.or_eq_true]
        rcases Int.le_total b.drawing_depth a.drawing_depth with h | h
        · exact Or.inl (decide_eq_true ((depth_comparator_not_gt_iff a b).mpr h))
        · exact Or.inr (decide_eq_true ((depth_comparator_not_gt_iff b a).mpr h)))
      l
    exact hs.imp (fun h => (depth_comparator_not_gt_iff _ _).mp (of_decide_eq_true h))

end Torifune
